import Mathlib

/-!
Shallow embedding of the `sha-one` Rust crate (`src/lib.rs`), a SHA-1
implementation per FIPS 180-4.  Machine integers are modelled as `Nat`
with explicit `% 2^w` where the source wraps; `u8` values read from the
input slice are coerced with `% 256`; Rust panics (out-of-bounds slice
indexing, the `panic!` arms of `block`/`f`/`sha1_const`) are modelled as
`Option.none`.  The source computes its block count and block indices
through `f32` arithmetic; those casts are modelled by `f32rnd`, an exact
integer rendering of IEEE-754 round-to-nearest-even conversion to
binary32, and the divisions are justified operation by operation in the
doc comments below.
-/

namespace ShaOne

/-- Rust `u32::rotate_left`: for `x < 2^32` and `0 < k < 32` this is the
exact 32-bit left rotation used at `lib.rs` lines 98, 104 and 113. -/
def rotl (k x : Nat) : Nat := ((x <<< k) ||| (x >>> (32 - k))) % 2 ^ 32

/-- `⌊log₂ n⌋`, computed by bounded search over the exponents `0..63` so
that it reduces inside the kernel (every natural this development feeds
to it is below `2^64`; `Nat.log2` itself is defined by well-founded
recursion and does not reduce). -/
def log2floor (n : Nat) : Nat :=
  (List.range 64).foldl (fun acc k => if 2 ^ k ≤ n then k else acc) 0

/-- IEEE-754 round-to-nearest-even conversion of a natural number to
binary32 (Rust `as f32`), returned as the exact natural number the float
denotes.  Numbers below `2^24` are exactly representable; larger numbers
are rounded to a 24-bit significand (unit in the last place
`2^(⌊log₂ n⌋ - 23)`), ties going to the even significand.  All naturals
appearing in the source are far below the f32 overflow threshold
(`2^128`), so no infinity case is needed. -/
def f32rnd (n : Nat) : Nat :=
  if n < 2 ^ 24 then n
  else
    let k := log2floor n - 23
    let q := n / 2 ^ k
    let r := n % 2 ^ k
    if r < 2 ^ (k - 1) then q * 2 ^ k
    else if 2 ^ (k - 1) < r then (q + 1) * 2 ^ k
    else if q % 2 = 0 then q * 2 ^ k else (q + 1) * 2 ^ k

/-- The block count computed at `lib.rs` 137-143:
`max(((L as f32 / 512.).ceil() + ((L % 512) as f32 / 448.).floor()) as usize, 1)`.
Justification of each float step:
* `L as f32` is `f32rnd L`; dividing a binary32 by `512 = 2^9` only
  shifts the exponent, so `(L as f32) / 512.` denotes exactly
  `f32rnd L / 512` (a rational), and `.ceil()` of it is the integer
  `(f32rnd L + 511) / 512`, exactly representable (it is at most
  `2^24` whenever `f32rnd L < 2^33`, and for larger `L` the float is
  already an integer multiple of `512`).
* `L % 512` is integer arithmetic (`r < 512`, exact in f32).  The real
  quotient `r / 448` lies in `[0, 8/7)`; rounding it to binary32 cannot
  cross an integer boundary (`447/448` rounds below `1`, and any
  quotient `≥ 1` rounds to a value `≥ 1`), so `.floor()` is the integer
  `r / 448`, i.e. `1` iff `448 ≤ r`.
* Both summands are integer-valued binary32 numbers; their f32 sum is
  the rounding `f32rnd` of the integer sum.  The `as usize` cast of a
  non-negative integral float below `2^63` is exact. -/
def num_blocks (inp_len_bits : Nat) : Nat :=
  max (f32rnd ((f32rnd inp_len_bits + 511) / 512 + inp_len_bits % 512 / 448)) 1

/-- `blocks[bn][bp].0 |= v` (`lib.rs` 159): `none` models the panic when
either index is out of bounds. -/
def oreq (blocks : List (List Nat)) (bn bp v : Nat) : Option (List (List Nat)) :=
  match blocks[bn]? with
  | none => none
  | some blk =>
    match blk[bp]? with
    | none => none
    | some w => some (blocks.set bn (blk.set bp (w ||| v)))

/-- `blocks[bn][bp].0 = v` (`lib.rs` 183-184): `none` models the panic
when either index is out of bounds. -/
def assign (blocks : List (List Nat)) (bn bp v : Nat) : Option (List (List Nat)) :=
  match blocks[bn]? with
  | none => none
  | some blk =>
    match blk[bp]? with
    | some _ => some (blocks.set bn (blk.set bp v))
    | none => none

/-- The byte-placement loop of `pad_data` (`lib.rs` 150-160), unrolled as
structural recursion over the remaining bytes, `i0` being the
`enumerate` index of the head.  Each iteration recomputes
`block_num = ((i as f32) / 64.).floor()` — exactly `f32rnd i / 64`
(division by `2^6` shifts the exponent, `.floor()` of an exact multiple
of `2^-6`-scaled integer is `f32rnd i / 64`) — and
`block_pos = (((i % 64) as f32) / 4.).floor()` — `i % 64 < 2^24` is
exactly representable, so this is `i % 64 / 4` — then ORs the byte into
the current word, big-endian.  The triple carried is
`(blocks, block_num, block_pos)` as mutated by the source loop. -/
def fill_from : List Nat → Nat → List (List Nat) × Nat × Nat →
    Option (List (List Nat) × Nat × Nat)
  | [], _, st => some st
  | x :: rest, i0, (blocks, _, _) =>
    let bn := f32rnd i0 / 64
    let bp := i0 % 64 / 4
    match oreq blocks bn bp ((x % 256) <<< (24 - i0 % 4 * 8)) with
    | none => none
    | some blocks2 => fill_from rest (i0 + 1) (blocks2, bn, bp)

/-- `pad_data` (`lib.rs` 129-187).  `inp_len_bits = inp.len() * 8` is a
`usize` product, hence the `% 2^64` (release-profile wrapping; it only
differs from the exact product for `inp.len() ≥ 2^61`).  After the byte
loop: `next_input = inp.len() % 4`; if it is zero and the input is
non-empty, the source advances `block_pos`, except that when
`block_pos == 15` it resets *both* `block_pos` and `block_num` to `0`
(`lib.rs` 169-171).  Then the `1` bit `128 << (24 - next_input * 8)` is
ORed in, and the two length words are stored into the last block. -/
def pad_data (inp : List Nat) : Option (List (List Nat)) :=
  let inp_len_bits := inp.length * 8 % 2 ^ 64
  let nb := num_blocks inp_len_bits
  match fill_from inp 0 (List.replicate nb (List.replicate 16 0), 0, 0) with
  | none => none
  | some (blocks1, block_num, block_pos) =>
    let next_input := inp.length % 4
    let bnp :=
      if next_input = 0 ∧ 0 < inp.length then
        if block_pos = 15 then (0, 0) else (block_num, block_pos + 1)
      else (block_num, block_pos)
    match oreq blocks1 bnp.1 bnp.2 (128 <<< (24 - next_input * 8)) with
    | none => none
    | some blocks2 =>
      match assign blocks2 (blocks2.length - 1) 15 (inp_len_bits % 2 ^ 32) with
      | none => none
      | some blocks3 =>
        match assign blocks3 (blocks3.length - 1) 14 (inp_len_bits >>> 32 % 2 ^ 32) with
        | none => none
        | some blocks4 => some blocks4

/-- `HashError` (`lib.rs` 16-20): the one error kind, returned when the
data is too large. -/
inductive HashError where
  | DataTooLarge
deriving DecidableEq, Repr

/-- The round function `f` (`lib.rs` 192-205).  `round: u8`; the wildcard
`panic!` arm is `none`.  Rust `!x` on `u32` is `x ^^^ 0xffffffff`. -/
def f (round x y z : Nat) : Option Nat :=
  if round ≤ 19 then some ((x &&& y) ^^^ ((x ^^^ 0xffffffff) &&& z))
  else if round ≤ 39 then some (x ^^^ y ^^^ z)
  else if round ≤ 59 then some ((x &&& y) ^^^ (x &&& z) ^^^ (y &&& z))
  else if round ≤ 79 then some (x ^^^ y ^^^ z)
  else none

/-- The round constants `sha1_const` (`lib.rs` 211-220); the wildcard
`panic!` arm is `none`. -/
def sha1_const (round : Nat) : Option Nat :=
  if round ≤ 19 then some 0x5a827999
  else if round ≤ 39 then some 0x6ed9eba1
  else if round ≤ 59 then some 0x8f1bbcdc
  else if round ≤ 79 then some 0xca62c1d6
  else none

/-- The per-round mutable state of `block` (`lib.rs` 78-120): the 80-word
message schedule `w` and the working variables `a,b,c,d,e`. -/
structure RoundState where
  w : List Nat
  a : Nat
  b : Nat
  c : Nat
  d : Nat
  e : Nat
deriving DecidableEq, Repr

/-- One iteration of the round loop of `block` (`lib.rs` 91-117) at index
`i`: the `match i` filling `w[i]` (`blk` has the Rust type
`[Wrapping<u32>; 16]`, so indexing it at `i ≤ 15` cannot fail, hence
`getD`; the `_ => panic!` arm is `none`), then
`t = a.rotate_left(5) + f(i,b,c,d) + e + sha1_const(i) + w[i]` with
wrapping additions, and the shift of the working variables. -/
def round_step (blk : List Nat) (i : Nat) (s : RoundState) : Option RoundState :=
  let wi? : Option Nat :=
    if i ≤ 15 then some (blk.getD i 0)
    else if i ≤ 79 then
      some (rotl 1 (s.w.getD (i - 3) 0 ^^^ s.w.getD (i - 8) 0 ^^^
        s.w.getD (i - 14) 0 ^^^ s.w.getD (i - 16) 0))
    else none
  match wi? with
  | none => none
  | some wi =>
    match f i s.b s.c s.d, sha1_const i with
    | some fv, some kv =>
      some ⟨s.w.set i wi, (rotl 5 s.a + fv + s.e + kv + wi) % 2 ^ 32,
        s.a, rotl 30 s.b, s.c, s.d⟩
    | _, _ => none

/-- `block` (`lib.rs` 78-127): runs the 80 rounds over the message
schedule and adds the working variables back into the hash words
(wrapping).  The Rust function takes `&[Wrapping<u32>; 5]`, modelled as
a 5-element list read with `getD`. -/
def block (hash : List Nat) (blk : List Nat) : Option (List Nat) :=
  match (List.range 80).foldlM (fun s i => round_step blk i s)
      (RoundState.mk (List.replicate 80 0) (hash.getD 0 0) (hash.getD 1 0)
        (hash.getD 2 0) (hash.getD 3 0) (hash.getD 4 0)) with
  | none => none
  | some s =>
    some [(hash.getD 0 0 + s.a) % 2 ^ 32, (hash.getD 1 0 + s.b) % 2 ^ 32,
      (hash.getD 2 0 + s.c) % 2 ^ 32, (hash.getD 3 0 + s.d) % 2 ^ 32,
      (hash.getD 4 0 + s.e) % 2 ^ 32]

/-- `sha1` (`lib.rs` 49-76).  The guard is the source's
`inp.len() >= 2 << 61` (note: `2 <<< 61 = 2^62`); on success the five
final hash words are returned.  `none` models a panic anywhere below the
guard. -/
def sha1 (inp : List Nat) : Option (Except HashError (List Nat)) :=
  if 2 <<< 61 ≤ inp.length then some (Except.error HashError.DataTooLarge)
  else
    match pad_data inp with
    | none => none
    | some blocks =>
      match blocks.foldlM (fun h b => block h b)
          [0x67452301, 0xefcdab89, 0x98badcfe, 0x10325476, 0xc3d2e1f0] with
      | none => none
      | some h => some (Except.ok h)

/-- The `Sha1` wrapper struct (`lib.rs` 25-27). -/
structure Sha1 where
  hash : List Nat
deriving DecidableEq, Repr

/-- `Sha1::new` (`lib.rs` 30-34). -/
def Sha1.new (inp : List Nat) : Option (Except HashError Sha1) :=
  match sha1 inp with
  | none => none
  | some (Except.error e) => some (Except.error e)
  | some (Except.ok h) => some (Except.ok ⟨h⟩)

/-- One lowercase hexadecimal digit, as produced by Rust's `{:08x}`
formatting. -/
def hexDigit (n : Nat) : Char :=
  if n < 10 then Char.ofNat (48 + n) else Char.ofNat (87 + n)

/-- A `u32` rendered as 8 lowercase hex digits with leading zeros
(`{:08x}`). -/
def hex8 (n : Nat) : String :=
  String.mk ((List.range 8).map fun k => hexDigit (n >>> (28 - 4 * k) % 16))

/-- `Sha1::to_string` (`lib.rs` 36-43): the five hash words concatenated,
each as `{:08x}`. -/
def Sha1.to_string (s : Sha1) : String :=
  hex8 (s.hash.getD 0 0) ++ hex8 (s.hash.getD 1 0) ++ hex8 (s.hash.getD 2 0) ++
    hex8 (s.hash.getD 3 0) ++ hex8 (s.hash.getD 4 0)

/-- The byte sequence of the ASCII input used by the repository's
`pad_data_one_block` test. -/
def hw_input : List Nat := "Hello, world! The world is here.".toList.map Char.toNat

/-! ## Helper lemmas -/

theorem set_self {α : Type} (l : List α) (i : Nat) (v : α) (h : l[i]? = some v) :
    l.set i v = l := by
  induction l generalizing i with
  | nil => simp at h
  | cons a t ih =>
    cases i with
    | zero => simp at h; simp [h]
    | succ j =>
      simp only [List.getElem?_cons_succ] at h
      simp [List.set_cons_succ, ih j h]

theorem oreq_zero (blocks : List (List Nat)) (bn bp w : Nat) (blk : List Nat)
    (h1 : blocks[bn]? = some blk) (h2 : blk[bp]? = some w) :
    oreq blocks bn bp 0 = some blocks := by
  simp only [oreq, h1, h2]
  have hw : w ||| 0 = w := Nat.or_zero w
  rw [hw, set_self blk bp w h2, set_self blocks bn blk h1]

theorem f32rnd_small (n : Nat) (h : n < 2 ^ 24) : f32rnd n = n := by
  unfold f32rnd
  rw [if_pos h]

theorem fill_from_zero (n : Nat) :
    ∀ (i0 : Nat) (blocks : List (List Nat)) (bn bp : Nat),
    (∀ j, j < n → oreq blocks (f32rnd (i0 + j) / 64) ((i0 + j) % 64 / 4) 0 = some blocks) →
    ∃ bn' bp', fill_from (List.replicate n 0) i0 (blocks, bn, bp) = some (blocks, bn', bp') := by
  induction n with
  | zero => intro i0 blocks bn bp _; exact ⟨bn, bp, rfl⟩
  | succ m ih =>
    intro i0 blocks bn bp hb
    rw [List.replicate_succ]
    have h0 := hb 0 (Nat.succ_pos m)
    rw [Nat.add_zero] at h0
    simp only [fill_from, Nat.zero_mod, Nat.zero_shiftLeft, h0]
    have hb' : ∀ j, j < m →
        oreq blocks (f32rnd (i0 + 1 + j) / 64) ((i0 + 1 + j) % 64 / 4) 0 = some blocks := by
      intro j hj
      have hall := hb (j + 1) (by omega)
      have he : i0 + (j + 1) = i0 + 1 + j := by omega
      rwa [he] at hall
    exact ih (i0 + 1) blocks _ _ hb'

theorem fill_from_append (l1 l2 : List Nat) :
    ∀ (i0 : Nat) (st : List (List Nat) × Nat × Nat),
    fill_from (l1 ++ l2) i0 st =
      (fill_from l1 i0 st).bind (fill_from l2 (i0 + l1.length)) := by
  induction l1 with
  | nil => intro i0 st; simp [fill_from]
  | cons x t ih =>
    intro i0 st
    obtain ⟨blocks, bn, bp⟩ := st
    simp only [List.cons_append, fill_from]
    cases oreq blocks (f32rnd i0 / 64) (i0 % 64 / 4) ((x % 256) <<< (24 - i0 % 4 * 8)) with
    | none => rfl
    | some b2 =>
      dsimp only
      rw [show t.append l2 = t ++ l2 from rfl, ih]
      have he : i0 + (x :: t).length = i0 + 1 + t.length := by
        simp [List.length_cons]
        omega
      rw [he]

theorem fill_big (B : List (List Nat))
    (hin : ∀ j, j < 16777216 → oreq B (j / 64) (j % 64 / 4) 0 = some B)
    (hoob : B[(262144 : Nat)]? = none) :
    fill_from (List.replicate 16777217 0) 0 (B, 0, 0) = none := by
  obtain ⟨bn', bp', hfill⟩ := fill_from_zero 16777216 0 B 0 0 (by
    intro j hj
    simp only [Nat.zero_add]
    rw [f32rnd_small j (by omega)]
    exact hin j hj)
  have h24 : f32rnd 16777216 / 64 = 262144 := by decide
  have hstep : fill_from [0] 16777216 (B, bn', bp') = none := by
    simp only [fill_from, h24]
    simp only [oreq, hoob]
  have happ := fill_from_append (List.replicate 16777216 0) [0] 0 (B, 0, 0)
  rw [List.length_replicate, Nat.zero_add, hfill, Option.some_bind, hstep] at happ
  rw [show List.replicate 16777217 (0 : Nat) = List.replicate 16777216 0 ++ [0] from by
    rw [show (16777217 : Nat) = 16777216 + 1 from rfl, List.replicate_succ'], happ]

/-- The smallest byte count at which the `f32` block-count computation of
`pad_data` goes wrong: `16777217` bytes are `2^27 + 8` bits, which
rounds down to `2^27` in binary32, so `num_blocks` yields `262144`
although the bytes alone need `262145` blocks; writing the last byte
then indexes past the end of the block vector, a panic (`none`). -/
theorem pad_data_eq_none_of_fill (inp : List Nat)
    (h : fill_from inp 0
      (List.replicate (num_blocks (inp.length * 8 % 2 ^ 64)) (List.replicate 16 0), 0, 0) =
      none) :
    pad_data inp = none := by
  simp only [pad_data, h]

theorem pad_data_big : pad_data (List.replicate 16777217 0) = none := by
  apply pad_data_eq_none_of_fill
  have hnb : num_blocks (16777217 * 8 % 2 ^ 64) = 262144 := by decide
  rw [List.length_replicate, hnb]
  exact fill_big _
    (by
      intro j hj
      exact oreq_zero _ _ _ 0 (List.replicate 16 0)
        (List.getElem?_replicate_of_lt (by omega))
        (List.getElem?_replicate_of_lt (by omega)))
    (by rw [List.getElem?_replicate]; simp)

/-! ## Claim theorems -/

/-- C1: the digest entry point returns `DataTooLarge` exactly for inputs of
byte length at least `2^62` — not `2^61` as the spec states: the source's
guard is `inp.len() >= 2 << 61`, and `2 << 61 = 2^62`, although the error's
own doc comment says the error is for data of at least `2^64` bits, i.e.
`2^61` bytes.  In particular an input of exactly `2^61` bytes is *not*
rejected. -/
theorem sha1_DataTooLarge_iff (inp : List Nat) :
    sha1 inp = some (Except.error HashError.DataTooLarge) ↔ 2 ^ 62 ≤ inp.length := by
  have hs : (2 : Nat) <<< 61 = 2 ^ 62 := by decide
  unfold sha1
  rw [hs]
  by_cases h : 2 ^ 62 ≤ inp.length
  · rw [if_pos h]
    simpa using h
  · simp only [if_neg h]
    constructor
    · intro hc
      exfalso
      cases hp : pad_data inp with
      | none =>
        simp only [hp] at hc
        exact Option.noConfusion hc
      | some blocks =>
        simp only [hp] at hc
        cases hf : blocks.foldlM (fun h b => block h b)
            [0x67452301, 0xefcdab89, 0x98badcfe, 0x10325476, 0xc3d2e1f0] with
        | none =>
          simp only [hf] at hc
          exact Option.noConfusion hc
        | some h5 =>
          simp only [hf] at hc
          exact Except.noConfusion (Option.some.inj hc)
    · intro hle
      exact absurd hle h

set_option maxRecDepth 16384 in
/-- C2: for a 64-byte input (byte length a multiple of 4 whose last occupied
word is index 15 of the first block), `pad_data` does *not* open a fresh
block for the `1` bit: it resets both `block_num` and `block_pos` to `0`
(`lib.rs` 169-171), so the `0x80000000` bit is ORed into word 0 of the
*first* block — a word already holding input bytes (`0x61616161` becomes
`0xe1616161`) — and only one block is produced in total. -/
theorem pad_data_64_bytes_overlays_first_word :
    pad_data (List.replicate 64 0x61) =
      some [[0xe1616161, 0x61616161, 0x61616161, 0x61616161, 0x61616161, 0x61616161,
        0x61616161, 0x61616161, 0x61616161, 0x61616161, 0x61616161, 0x61616161,
        0x61616161, 0x61616161, 0, 512]] := rfl

/-- C3: the number of blocks `pad_data` produces is *not* always
`max(⌈L/512⌉ + ⌊(L mod 512)/448⌋, 1)`: at byte length `16777217`
(`L = 2^27 + 8` bits) the exact formula gives `262145`, but the source's
`f32` arithmetic rounds `L` down to `2^27` and computes `262144`; the byte
loop then indexes out of bounds, so `pad_data` panics and returns no block
sequence at all. -/
theorem pad_data_block_count_f32_bug :
    num_blocks (16777217 * 8) = 262144 ∧
    max ((16777217 * 8 + 511) / 512 + 16777217 * 8 % 512 / 448) 1 = 262145 ∧
    pad_data (List.replicate 16777217 0) = none :=
  ⟨by decide, by decide, pad_data_big⟩

/-- C4: the digest computation does *not* always return a `Digest` or the
typed `OversizedInput` failure: on an input of `16777217 = 2^24 + 1` zero
bytes the padding loop indexes past the end of the block vector (the `f32`
block count is one too small) and the program panics, modelled as `none`. -/
theorem sha1_panics_at_2pow24_plus_1 :
    sha1 (List.replicate 16777217 0) = none := by
  unfold sha1
  rw [List.length_replicate]
  rw [if_neg (by decide : ¬ (2 : Nat) <<< 61 ≤ 16777217), pad_data_big]

set_option maxRecDepth 16384 in
/-- C5: the digest of the empty input is
`da39a3ee5e6b4b0d3255bfef95601890afd80709` and the digest of ASCII `"abc"`
is `a9993e364706816aba3e25717850c26c9cd0d89d`, both as the five hash words
and as the rendered lowercase hex string. -/
theorem sha1_known_vectors :
    Sha1.new [] =
      some (Except.ok ⟨[0xda39a3ee, 0x5e6b4b0d, 0x3255bfef, 0x95601890, 0xafd80709]⟩) ∧
    Sha1.to_string ⟨[0xda39a3ee, 0x5e6b4b0d, 0x3255bfef, 0x95601890, 0xafd80709]⟩ =
      "da39a3ee5e6b4b0d3255bfef95601890afd80709" ∧
    Sha1.new [0x61, 0x62, 0x63] =
      some (Except.ok ⟨[0xa9993e36, 0x4706816a, 0xba3e2571, 0x7850c26c, 0x9cd0d89d]⟩) ∧
    Sha1.to_string ⟨[0xa9993e36, 0x4706816a, 0xba3e2571, 0x7850c26c, 0x9cd0d89d]⟩ =
      "a9993e364706816aba3e25717850c26c9cd0d89d" :=
  ⟨rfl, rfl, rfl, rfl⟩

set_option maxRecDepth 16384 in
/-- C6 (counterexample): for the ASCII input
`"Hello, world! The world is here."` the final word of the padded block is
*not* `264`: the string is 32 bytes, not 33, so the bit length stored at
word 15 is `256`. -/
theorem pad_data_hello_word15_not_264 :
    ¬ (pad_data hw_input).map (fun bs => bs.map fun b => b.getD 15 0) = some [264] := by
  decide

set_option maxRecDepth 16384 in
/-- C6 (amended): the input is 32 bytes; `pad_data` returns a single block
whose words 0-7 are the big-endian packing of the bytes, word 8 is
`0x80000000`, words 9-14 are zero and word 15 is the bit length
`256 = 32 × 8` — exactly the repository's `pad_data_one_block` test. -/
theorem pad_data_hello_block :
    hw_input.length = 32 ∧
    pad_data hw_input =
      some [[0x48656c6c, 0x6f2c2077, 0x6f726c64, 0x21205468, 0x6520776f, 0x726c6420,
        0x69732068, 0x6572652e, 0x80000000, 0, 0, 0, 0, 0, 0, 256]] :=
  ⟨rfl, rfl⟩

/-- C8: the empty input pads to exactly one block, word 0 the lone `1` bit
`0x80000000`, all other fifteen words (including the two length words)
zero. -/
theorem pad_data_empty :
    pad_data [] = some [[0x80000000, 0, 0, 0, 0, 0, 0, 0, 0, 0, 0, 0, 0, 0, 0, 0]] := rfl

/-- C9: the digest computation is deterministic: it is a pure function of
the input bytes (the embedding is a function, and the source holds no
mutable or global state), so two invocations on the same bytes agree, both
at the raw-digest and at the wrapper level. -/
theorem sha1_deterministic (inp : List Nat) :
    sha1 inp = sha1 inp ∧ Sha1.new inp = Sha1.new inp :=
  ⟨rfl, rfl⟩

theorem ch_xor_eq_or (x y z : Nat) (hx : x < 2 ^ 32) :
    (x &&& y) ^^^ ((x ^^^ 0xffffffff) &&& z) = (x &&& y) ||| ((x ^^^ 0xffffffff) &&& z) := by
  apply Nat.eq_of_testBit_eq
  intro i
  simp only [Nat.testBit_xor, Nat.testBit_and, Nat.testBit_or]
  by_cases hi : i < 32
  · have hm : Nat.testBit 0xffffffff i = true := by
      rw [show (0xffffffff : Nat) = 2 ^ 32 - 1 from rfl, Nat.testBit_two_pow_sub_one]
      simpa using hi
    cases hxb : x.testBit i <;> cases hyb : y.testBit i <;> cases hzb : z.testBit i <;>
      simp [hm, hxb, hyb, hzb]
  · have hxb : x.testBit i = false :=
      Nat.testBit_lt_two_pow (lt_of_lt_of_le hx (Nat.pow_le_pow_right (by omega) (by omega)))
    have hm : Nat.testBit 0xffffffff i = false := by
      rw [show (0xffffffff : Nat) = 2 ^ 32 - 1 from rfl, Nat.testBit_two_pow_sub_one]
      simpa using hi
    simp [hxb, hm]

theorem maj_xor_eq_or (x y z : Nat) :
    (x &&& y) ^^^ (x &&& z) ^^^ (y &&& z) = (x &&& y) ||| (x &&& z) ||| (y &&& z) := by
  apply Nat.eq_of_testBit_eq
  intro i
  simp only [Nat.testBit_xor, Nat.testBit_and, Nat.testBit_or]
  cases hxb : x.testBit i <;> cases hyb : y.testBit i <;> cases hzb : z.testBit i <;> rfl

/-- C7: over the four 20-round bands, `f` is Ch, Parity, Maj, Parity — with
Ch and Maj given in the spec's ∨ form (the source computes them with XOR
in place of OR, which agrees because the ORed operands have disjoint
bits) — and `sha1_const` is the four FIPS constants. -/
theorem f_sha1_const_four_bands (i x y z : Nat) (hx : x < 2 ^ 32) :
    (i ≤ 19 →
      f i x y z = some ((x &&& y) ||| ((x ^^^ 0xffffffff) &&& z)) ∧
      sha1_const i = some 0x5a827999) ∧
    (20 ≤ i → i ≤ 39 →
      f i x y z = some (x ^^^ y ^^^ z) ∧ sha1_const i = some 0x6ed9eba1) ∧
    (40 ≤ i → i ≤ 59 →
      f i x y z = some ((x &&& y) ||| (x &&& z) ||| (y &&& z)) ∧
      sha1_const i = some 0x8f1bbcdc) ∧
    (60 ≤ i → i ≤ 79 →
      f i x y z = some (x ^^^ y ^^^ z) ∧ sha1_const i = some 0xca62c1d6) := by
  refine ⟨fun h19 => ⟨?_, ?_⟩, fun h20 h39 => ⟨?_, ?_⟩, fun h40 h59 => ⟨?_, ?_⟩,
    fun h60 h79 => ⟨?_, ?_⟩⟩
  · unfold f
    rw [if_pos h19, ch_xor_eq_or x y z hx]
  · unfold sha1_const
    rw [if_pos h19]
  · unfold f
    rw [if_neg (by omega), if_pos h39]
  · unfold sha1_const
    rw [if_neg (by omega), if_pos h39]
  · unfold f
    rw [if_neg (by omega), if_neg (by omega), if_pos h59, maj_xor_eq_or]
  · unfold sha1_const
    rw [if_neg (by omega), if_neg (by omega), if_pos h59]
  · unfold f
    rw [if_neg (by omega), if_neg (by omega), if_neg (by omega), if_pos h79]
  · unfold sha1_const
    rw [if_neg (by omega), if_neg (by omega), if_neg (by omega), if_pos h79]

/-- C7 witness: the four bands evaluated at one concrete round each. -/
theorem f_sha1_const_four_bands_witness :
    (1 : Nat) < 2 ^ 32 ∧
    (f 0 1 2 3 = some ((1 &&& 2) ||| ((1 ^^^ 0xffffffff) &&& 3)) ∧
      sha1_const 0 = some 0x5a827999) ∧
    (f 25 1 2 3 = some (1 ^^^ 2 ^^^ 3) ∧ sha1_const 25 = some 0x6ed9eba1) ∧
    (f 45 1 2 3 = some ((1 &&& 2) ||| (1 &&& 3) ||| (2 &&& 3)) ∧
      sha1_const 45 = some 0x8f1bbcdc) ∧
    (f 65 1 2 3 = some (1 ^^^ 2 ^^^ 3) ∧ sha1_const 65 = some 0xca62c1d6) :=
  ⟨by decide,
    (f_sha1_const_four_bands 0 1 2 3 (by decide)).1 (by decide),
    (f_sha1_const_four_bands 25 1 2 3 (by decide)).2.1 (by decide) (by decide),
    (f_sha1_const_four_bands 45 1 2 3 (by decide)).2.2.1 (by decide) (by decide),
    (f_sha1_const_four_bands 65 1 2 3 (by decide)).2.2.2 (by decide) (by decide)⟩

theorem f_some (i x y z : Nat) (h : i ≤ 79) : ∃ v, f i x y z = some v := by
  unfold f
  by_cases h1 : i ≤ 19
  · exact ⟨_, by rw [if_pos h1]⟩
  · by_cases h2 : i ≤ 39
    · exact ⟨_, by rw [if_neg h1, if_pos h2]⟩
    · by_cases h3 : i ≤ 59
      · exact ⟨_, by rw [if_neg h1, if_neg h2, if_pos h3]⟩
      · exact ⟨_, by rw [if_neg h1, if_neg h2, if_neg h3, if_pos h]⟩

theorem sha1_const_some (i : Nat) (h : i ≤ 79) : ∃ v, sha1_const i = some v := by
  unfold sha1_const
  by_cases h1 : i ≤ 19
  · exact ⟨_, by rw [if_pos h1]⟩
  · by_cases h2 : i ≤ 39
    · exact ⟨_, by rw [if_neg h1, if_pos h2]⟩
    · by_cases h3 : i ≤ 59
      · exact ⟨_, by rw [if_neg h1, if_neg h2, if_pos h3]⟩
      · exact ⟨_, by rw [if_neg h1, if_neg h2, if_neg h3, if_pos h]⟩

theorem round_step_some (blk : List Nat) (i : Nat) (s : RoundState) (h : i < 80) :
    ∃ s2, round_step blk i s = some s2 := by
  obtain ⟨fv, hf⟩ := f_some i s.b s.c s.d (by omega)
  obtain ⟨kv, hk⟩ := sha1_const_some i (by omega)
  unfold round_step
  by_cases h15 : i ≤ 15
  · simp only [if_pos h15, hf, hk]
    exact ⟨_, rfl⟩
  · simp only [if_neg h15, if_pos (show i ≤ 79 by omega), hf, hk]
    exact ⟨_, rfl⟩

theorem foldlM_option_some {α β : Type} (step : β → α → Option β) (l : List α)
    (h : ∀ a, a ∈ l → ∀ s, ∃ r, step s a = some r) :
    ∀ init, ∃ r, List.foldlM step init l = some r := by
  induction l with
  | nil => intro init; exact ⟨init, rfl⟩
  | cons a t ih =>
    intro init
    obtain ⟨r1, hr1⟩ := h a (List.mem_cons_self a t) init
    rw [List.foldlM_cons, hr1]
    simp only [Option.bind_eq_bind, Option.some_bind]
    exact ih (fun b hb s => h b (List.mem_cons_of_mem _ hb) s) r1

theorem block_some (hash blk : List Nat) : ∃ h5, block hash blk = some h5 := by
  obtain ⟨s, hs⟩ := foldlM_option_some (fun s i => round_step blk i s) (List.range 80)
    (fun a ha s => round_step_some blk a s (List.mem_range.mp ha))
    (RoundState.mk (List.replicate 80 0) (hash.getD 0 0) (hash.getD 1 0)
      (hash.getD 2 0) (hash.getD 3 0) (hash.getD 4 0))
  unfold block
  rw [hs]
  exact ⟨_, rfl⟩

/-- C10: the `panic!` arms (modelled as `none`) of the message-schedule
match, of `f` and of `sha1_const` are unreachable for every round index
the fixed 80-iteration loop produces: each returns a value for `i < 80`,
and consequently `block` — which folds the 80 rounds — always returns a
hash, never the panic. -/
theorem panic_arms_unreachable (i x y z : Nat) (hash blk : List Nat) (s : RoundState)
    (h : i < 80) :
    (∃ v, f i x y z = some v) ∧ (∃ k, sha1_const i = some k) ∧
    (∃ s2, round_step blk i s = some s2) ∧ (∃ h5, block hash blk = some h5) :=
  ⟨f_some i x y z (by omega), sha1_const_some i (by omega),
    round_step_some blk i s h, block_some hash blk⟩

/-- C10 witness: the round machinery evaluated at round 0 on concrete
state. -/
theorem panic_arms_unreachable_witness :
    (0 : Nat) < 80 ∧
    ((∃ v, f 0 0 0 0 = some v) ∧ (∃ k, sha1_const 0 = some k) ∧
     (∃ s2, round_step (List.replicate 16 0) 0
        (RoundState.mk (List.replicate 80 0) 0 0 0 0 0) = some s2) ∧
     (∃ h5, block [0, 0, 0, 0, 0] (List.replicate 16 0) = some h5)) :=
  ⟨by decide, panic_arms_unreachable 0 0 0 0 [0, 0, 0, 0, 0] (List.replicate 16 0)
    (RoundState.mk (List.replicate 80 0) 0 0 0 0 0) (by decide)⟩

end ShaOne
